import Mathlib

/-!
Verification of the Sports Tournament Scheduling (STS) repository.

This file gives a shallow embedding of the repository's core logic:

* the Boolean cardinality encodings of `source/SAT/STS_SAT_satisf.py`
  (naive pairwise and Heule encodings for "exactly one of k");
* the STS constraint model (round-robin, period and home/away
  consistency, period-usage cap) shared by the SAT / MILP / SMT
  backends, plus the symmetry-breaking rules;
* the result-canonicalization / optimality-certification logic of
  `mip_model.py`, `cp_docker_utils.py`, `smt_docker_utils.py` and the
  SAT backend's `save_solution_to_json`;
* the JSON merge-on-save logic and the CLI team-count validation.

Theorems at the end settle the specification claims against these
definitions.
-/

/-! ## Cardinality encodings (source/SAT/STS_SAT_satisf.py, lines 12-32)

The Python code builds z3 formulas over a list of Boolean variables.
We embed the formulas semantically: a list of Booleans is the value of
the input propositions under an assignment, and each encoder returns
the truth value of the emitted formula under that assignment.
-/

/-- `itertools.combinations(bool_vars, 2)`: all (earlier, later) pairs of a list. -/
def combinations2 : List Bool → List (Bool × Bool)
  | [] => []
  | a :: xs => xs.map (fun b => (a, b)) ++ combinations2 xs

/-- `at_least_one_np(bool_vars) = Or(bool_vars)`. -/
def at_least_one_np (bool_vars : List Bool) : Bool :=
  bool_vars.any id

/-- `at_most_one_np(bool_vars) = And([Not(And(p0, p1)) for pairs])`. -/
def at_most_one_np (bool_vars : List Bool) : Bool :=
  (combinations2 bool_vars).all (fun p => !(p.1 && p.2))

/-- `exactly_one_np(bool_vars) = And(at_least_one_np, at_most_one_np)`. -/
def exactly_one_np (bool_vars : List Bool) : Bool :=
  at_least_one_np bool_vars && at_most_one_np bool_vars

/-- `at_least_one_he(bool_vars) = at_least_one_np(bool_vars)`. -/
def at_least_one_he (bool_vars : List Bool) : Bool :=
  at_least_one_np bool_vars

/-- `at_most_one_he(bool_vars, name)`: the Heule recursive at-most-one
encoding.  The source introduces a fresh auxiliary variable
`y = Bool(f"y_{name}")` (fresh by the name-suffix discipline), asserts
pairwise at-most-one over the first three literals plus `y`, and
recurses on the remaining literals plus `Not(y)`.  Because `y` is fresh
and unconstrained elsewhere, the encoding is satisfiable over the input
assignment iff it is satisfiable for SOME value of `y`; we embed that
existential as the disjunction over the two values of `y`. -/
def at_most_one_he (bool_vars : List Bool) : Bool :=
  if bool_vars.length ≤ 4 then
    at_most_one_np bool_vars
  else
    (at_most_one_np (bool_vars.take 3 ++ [true]) &&
      at_most_one_he (bool_vars.drop 3 ++ [false])) ||
    (at_most_one_np (bool_vars.take 3 ++ [false]) &&
      at_most_one_he (bool_vars.drop 3 ++ [true]))
termination_by bool_vars.length
decreasing_by
  all_goals simp only [List.length_append, List.length_drop, List.length_cons,
    List.length_nil]
  all_goals omega

/-- `exactly_one_he(bool_vars, name) = And(at_most_one_he, at_least_one_he)`. -/
def exactly_one_he (bool_vars : List Bool) : Bool :=
  at_most_one_he bool_vars && at_least_one_he bool_vars

/-! ### Semantics of the encodings -/

theorem combinations2_cons (a : Bool) (xs : List Bool) :
    combinations2 (a :: xs) = xs.map (fun b => (a, b)) ++ combinations2 xs := rfl

theorem at_least_one_np_iff (l : List Bool) :
    at_least_one_np l = true ↔ 1 ≤ l.count true := by
  simp only [at_least_one_np, List.any_eq_true, id_eq]
  constructor
  · rintro ⟨x, hx, rfl⟩
    exact List.one_le_count_iff.mpr hx
  · intro h
    exact ⟨true, List.one_le_count_iff.mp h, rfl⟩

theorem all_not_iff_count_zero (l : List Bool) :
    l.all (fun b => !b) = true ↔ l.count true = 0 := by
  rw [List.count_eq_zero]
  simp only [List.all_eq_true, Bool.not_eq_eq_eq_not, Bool.not_true]
  constructor
  · intro h ht
    exact absurd (h true ht) (by simp)
  · intro h b hb
    cases b with
    | false => rfl
    | true => exact absurd hb h

theorem at_most_one_np_cons (a : Bool) (xs : List Bool) :
    at_most_one_np (a :: xs) =
      ((xs.all fun b => !(a && b)) && at_most_one_np xs) := by
  simp only [at_most_one_np, combinations2_cons, List.all_append]
  congr 1
  induction xs with
  | nil => rfl
  | cons c cs ihc => simp_all

theorem at_most_one_np_iff (l : List Bool) :
    at_most_one_np l = true ↔ l.count true ≤ 1 := by
  induction l with
  | nil => simp [at_most_one_np, combinations2]
  | cons a xs ih =>
    rw [at_most_one_np_cons, Bool.and_eq_true, ih]
    cases a with
    | false =>
      simp [List.count_cons]
    | true =>
      simp only [Bool.true_and, all_not_iff_count_zero, List.count_cons_self]
      omega

theorem exactly_one_np_iff (l : List Bool) :
    exactly_one_np l = true ↔ l.count true = 1 := by
  simp only [exactly_one_np, Bool.and_eq_true, at_least_one_np_iff,
    at_most_one_np_iff]
  omega

theorem count_append_singleton (l : List Bool) (b : Bool) :
    (l ++ [b]).count true = l.count true + (if b then 1 else 0) := by
  rw [List.count_append]
  cases b <;> simp [List.count_cons]

theorem count_take_drop (l : List Bool) (k : Nat) :
    (l.take k).count true + (l.drop k).count true = l.count true := by
  rw [← List.count_append, List.take_append_drop]

theorem at_most_one_he_iff (l : List Bool) :
    at_most_one_he l = true ↔ l.count true ≤ 1 := by
  by_cases h : l.length ≤ 4
  · rw [at_most_one_he, if_pos h]
    exact at_most_one_np_iff l
  · rw [at_most_one_he, if_neg h]
    have ih1 := at_most_one_he_iff (l.drop 3 ++ [false])
    have ih2 := at_most_one_he_iff (l.drop 3 ++ [true])
    have hsplit := count_take_drop l 3
    simp only [Bool.or_eq_true, Bool.and_eq_true, at_most_one_np_iff, ih1, ih2,
      count_append_singleton]
    simp only [if_pos, if_neg, Bool.false_eq_true, not_false_iff, ite_true,
      ite_false]
    omega
termination_by l.length
decreasing_by
  all_goals simp only [List.length_append, List.length_drop, List.length_cons,
    List.length_nil]
  all_goals omega

theorem exactly_one_he_iff (l : List Bool) :
    exactly_one_he l = true ↔ l.count true = 1 := by
  simp only [exactly_one_he, Bool.and_eq_true, at_most_one_he_iff,
    at_least_one_he, at_least_one_np_iff]
  omega

/-! ## Python `round` (banker's rounding, used on solve times) -/

/-- Python 3 `round` on a rational: round half to even. -/
def pyRound (q : ℚ) : ℤ :=
  if q - ⌊q⌋ < 1/2 then ⌊q⌋
  else if 1/2 < q - ⌊q⌋ then ⌊q⌋ + 1
  else if ⌊q⌋ % 2 = 0 then ⌊q⌋ else ⌊q⌋ + 1

theorem pyRound_mem (q : ℚ) : pyRound q = ⌊q⌋ ∨ pyRound q = ⌊q⌋ + 1 := by
  unfold pyRound
  split
  · exact Or.inl rfl
  split
  · exact Or.inr rfl
  split
  · exact Or.inl rfl
  · exact Or.inr rfl

theorem pyRound_le (q : ℚ) (n : ℤ) (h : q ≤ (n : ℚ)) : pyRound q ≤ n := by
  have hf : ⌊q⌋ ≤ n := by
    have := Int.floor_le_floor h
    rwa [Int.floor_intCast] at this
  rcases pyRound_mem q with hm | hm
  · omega
  · rw [hm]
    by_contra hc
    push_neg at hc
    have hfn : ⌊q⌋ = n := by omega
    have h0 : q - ⌊q⌋ < 1/2 := by
      rw [hfn]
      have := Int.floor_le q
      linarith
    unfold pyRound at hm
    rw [if_pos h0] at hm
    omega

theorem pyRound_ge (q : ℚ) (n : ℤ) (h : (n : ℚ) ≤ q) : n ≤ pyRound q := by
  have hf : n ≤ ⌊q⌋ := Int.le_floor.mpr h
  rcases pyRound_mem q with hm | hm <;> omega

/-! ## Canonical benchmark record

Persisted shape (`{time, optimal, obj, sol}`), shared by all backends
(spec section 6).  `sol` is backend-shaped, so the record is generic in
the schedule type; the empty schedule is `[]`.
-/

structure BenchRecord (σ : Type) where
  time : ℚ
  optimal : Bool
  obj : Option ℤ
  sol : List σ

/-! ## MILP result logic (source/MILP/mip_model.py, solve_instance) -/

/-- PuLP solver status, as compared against by `solve_instance`. -/
inductive LpStatusT where
  | Optimal
  | NotSolved
  | Undefined
  | Infeasible
  | Unbounded
deriving DecidableEq

/-- `has_solution = status in ["Optimal"] or (status in ["Not Solved",
"Undefined"] and any(v.varValue is not None for v in model.variables()))`. -/
def lp_has_solution (st : LpStatusT) (anyVarValue : Bool) : Bool :=
  (st == .Optimal) || (((st == .NotSolved) || (st == .Undefined)) && anyVarValue)

/-- `is_complete_solution = all(all(match is not None for match in week)
for week in schedule)`. -/
def schedule_complete (schedule : List (List (Option (ℕ × ℕ)))) : Bool :=
  schedule.all (fun week => week.all (fun m => m.isSome))

/-- The pure result-record logic of `mip_model.solve_instance` (lines
52-112).  Inputs produced by the out-of-scope solver call and the
extractor: the PuLP status, whether any variable carries a value, the
extracted schedule, `calculate_breaks`'s total, the elapsed time and the
configured limit. -/
def mip_solve_result (n : ℤ) (isOptimization : Bool) (st : LpStatusT)
    (anyVarValue : Bool) (schedule : List (List (Option (ℕ × ℕ))))
    (totalBreaks : ℤ) (solveTime : ℚ) (timeLimit : ℤ) :
    BenchRecord (List (Option (ℕ × ℕ))) :=
  if lp_has_solution st anyVarValue then
    if !(schedule_complete schedule) then
      ⟨(min (pyRound solveTime) timeLimit : ℤ), false, none, []⟩
    else if isOptimization then
      ⟨(min (pyRound solveTime) timeLimit : ℤ),
        (st == .Optimal) && (totalBreaks == n - 2), some totalBreaks, schedule⟩
    else
      ⟨(min (pyRound solveTime) timeLimit : ℤ), st == .Optimal, none, schedule⟩
  else if solveTime < 1 then
    ⟨(pyRound solveTime : ℤ), true, none, []⟩
  else
    ⟨(min (pyRound solveTime) timeLimit : ℤ), false, none, []⟩

/-! ## CP result logic (source/CP/cp_docker_utils.py, parse_minizinc_output;
source/CP/CP_STS.py, solve_instance_direct) -/

/-- `"UNSATISFIABLE" in output.upper() or "unsatisfiable" in output.lower()`. -/
def cp_unsat_detected (output : List Char) : Bool :=
  decide (("UNSATISFIABLE".toList) <:+: output.map Char.toUpper) ||
    decide (("unsatisfiable".toList) <:+: output.map Char.toLower)

/-- `has_optimality_marker = "==========" in output or "----------" in output`. -/
def cp_optimality_marker (output : List Char) : Bool :=
  decide (("==========".toList) <:+: output) ||
    decide (("----------".toList) <:+: output)

/-- The result logic of `parse_minizinc_output`.  The regex extraction
of period lines, objective values and timing is out-of-scope text
processing; its results enter as the `periodsParsed`, `altParsed`,
`objParsed` and `timeMsParsed` inputs.  The UNSAT check and the
optimality decision are modelled directly. -/
def cp_parse_minizinc_output (output : List Char) (isOptimization : Bool)
    (n : Option ℤ) (periodsParsed altParsed : List (List (ℕ × ℕ)))
    (objParsed : Option ℤ) (timeMsParsed : Option ℚ) :
    BenchRecord (List (ℕ × ℕ)) :=
  if cp_unsat_detected output then
    ⟨0, true, none, []⟩
  else
    let sol := if periodsParsed ≠ [] then periodsParsed else altParsed
    let hasMarker := cp_optimality_marker output
    let opt : Bool :=
      match isOptimization, n, objParsed with
      | true, some m, some b => hasMarker && (b == m - 2)
      | _, _, _ => hasMarker
    let time : ℚ := match timeMsParsed with
      | some ms => ms / 1000
      | none => 0
    ⟨time, opt, objParsed, sol⟩

/-- The time safeguard of `CP_STS.solve_instance_direct`:
never record times longer than timeout + buffer. -/
def cp_time_guard {σ : Type} (timeLimit : ℚ) (r : BenchRecord σ) :
    BenchRecord σ :=
  if r.time > timeLimit + 5 then { r with time := timeLimit, optimal := false }
  else r

/-! ## SMT result logic (source/SMT/smt_docker_utils.py, save_solution_to_json) -/

/-- The optimization branch (`"smt_opt" in result_key`).  `hasSchedule`
is `result_data.get("schedule") is not None`; `sol` is the
`convert_schedule_to_periods` output for that schedule. -/
def smt_save_opt (n : ℤ) (hasSchedule : Bool) (objIn : Option ℤ)
    (optIn : Bool) (solveTime : ℚ) (sol : List (List (ℕ × ℕ))) :
    BenchRecord (List (ℕ × ℕ)) :=
  if hasSchedule && objIn.isSome then
    ⟨(pyRound solveTime : ℤ), optIn && (objIn == some (n - 2)), objIn, sol⟩
  else if solveTime ≥ 299 then
    ⟨300, false, none, []⟩
  else if solveTime < 1 then
    ⟨0, true, none, []⟩
  else
    ⟨(pyRound solveTime : ℤ), false, none, []⟩

/-- The satisfiability branch of the SMT save logic. -/
def smt_save_satisf (feasible : Bool) (solveTime : ℚ)
    (sol : List (List (ℕ × ℕ))) : BenchRecord (List (ℕ × ℕ)) :=
  if feasible then
    ⟨(pyRound solveTime : ℤ), true, none, sol⟩
  else if solveTime ≥ 299 then
    ⟨300, false, none, []⟩
  else
    ⟨(pyRound solveTime : ℤ), true, none, []⟩

/-! ## SAT result logic (source/SAT/STS_SAT_satisf.py,
save_solution_to_json lines 219-259) -/

/-- Per-result record construction of the SAT backend's save routine.
`sol` is the period-by-week matrix built from the feasible schedule. -/
def sat_save_result (feasible : Bool) (solveTime : ℚ)
    (sol : List (List (Option (ℕ × ℕ)))) :
    BenchRecord (List (Option (ℕ × ℕ))) :=
  if feasible then
    ⟨(pyRound solveTime : ℤ), true, none, sol⟩
  else if solveTime ≥ 299 then
    ⟨300, false, none, []⟩
  else
    ⟨(pyRound solveTime : ℤ), true, none, []⟩

/-! ## JSON merge-on-save (save_solution_to_json of every backend:
`existing_results.update(new_results)` then dump) -/

/-- Set one key of a Python-style dict: replace in place when present,
append when absent. -/
def setKey {V : Type} : List (String × V) → String → V → List (String × V)
  | [], k, v => [(k, v)]
  | (k0, v0) :: rest, k, v =>
    if k0 = k then (k, v) :: rest else (k0, v0) :: setKey rest k v

/-- `existing.update(new)`: set every binding of `new` into `existing`. -/
def dict_update {V : Type} (existing nw : List (String × V)) :
    List (String × V) :=
  nw.foldl (fun acc kv => setKey acc kv.1 kv.2) existing

def dict_lookup {V : Type} : List (String × V) → String → Option V
  | [], _ => none
  | (k0, v0) :: rest, k => if k0 = k then some v0 else dict_lookup rest k

def dict_keys {V : Type} (d : List (String × V)) : List String :=
  d.map (fun kv => kv.1)

theorem dict_lookup_setKey_self {V : Type} (d : List (String × V))
    (k : String) (v : V) : dict_lookup (setKey d k v) k = some v := by
  induction d with
  | nil => simp [setKey, dict_lookup]
  | cons kv rest ih =>
    obtain ⟨k0, v0⟩ := kv
    by_cases h : k0 = k
    · simp [setKey, h, dict_lookup]
    · simp [setKey, h, dict_lookup, ih]

theorem dict_lookup_setKey_other {V : Type} (d : List (String × V))
    (k k' : String) (v : V) (h : k' ≠ k) :
    dict_lookup (setKey d k v) k' = dict_lookup d k' := by
  have hne : ¬ k = k' := fun hc => h hc.symm
  induction d with
  | nil =>
    simp only [setKey, dict_lookup]
    rw [if_neg hne]
  | cons kv rest ih =>
    obtain ⟨k0, v0⟩ := kv
    by_cases h0 : k0 = k
    · subst h0
      simp only [setKey, if_pos rfl, dict_lookup, if_neg hne]
    · simp only [setKey, if_neg h0, dict_lookup, ih]

theorem dict_update_lookup_old {V : Type} (old nw : List (String × V))
    (k : String) (h : k ∉ dict_keys nw) :
    dict_lookup (dict_update old nw) k = dict_lookup old k := by
  induction nw generalizing old with
  | nil => rfl
  | cons kv rest ih =>
    obtain ⟨k0, v0⟩ := kv
    simp only [dict_keys, List.map_cons, List.mem_cons, not_or] at h
    obtain ⟨hk0, hrest⟩ := h
    show dict_lookup (dict_update (setKey old k0 v0) rest) k = dict_lookup old k
    rw [ih (setKey old k0 v0) hrest, dict_lookup_setKey_other old k0 k v0 hk0]

theorem dict_update_lookup_new {V : Type} (old nw : List (String × V))
    (k : String) (v : V) (hnd : (dict_keys nw).Nodup)
    (h : dict_lookup nw k = some v) :
    dict_lookup (dict_update old nw) k = some v := by
  induction nw generalizing old with
  | nil => simp [dict_lookup] at h
  | cons kv rest ih =>
    obtain ⟨k0, v0⟩ := kv
    have hk0 : k0 ∉ dict_keys rest := by
      simp only [dict_keys, List.map_cons, List.nodup_cons] at hnd
      exact hnd.1
    have hrest : (dict_keys rest).Nodup := by
      simp only [dict_keys, List.map_cons, List.nodup_cons] at hnd
      exact hnd.2
    show dict_lookup (dict_update (setKey old k0 v0) rest) k = some v
    by_cases hk : k0 = k
    · subst hk
      have hv : some v0 = some v := by
        rw [← h]
        simp [dict_lookup]
      rw [dict_update_lookup_old _ rest k0 hk0,
        dict_lookup_setKey_self old k0 v0]
      exact hv
    · rw [show dict_lookup ((k0, v0) :: rest) k =
        (if k0 = k then some v0 else dict_lookup rest k) from rfl,
        if_neg hk] at h
      exact ih (setKey old k0 v0) hrest h

/-! ## CLI team-count validation (mip_model.py main; STS_SAT_satisf.py
main block; identical parity tests in the other backends) -/

/-- The acceptance test applied before any model is built:
`args.teams % 2 != 0` prints a usage error and exits with status 1,
so `n` is accepted exactly when `n % 2 == 0`.  (Python `%` with a
positive modulus is the Euclidean remainder, as is Lean's `Int.emod`.) -/
def teams_check (n : ℤ) : Bool := n % 2 == 0

/-- Parameter derivation of the model builders (for n accepted):
`W = n - 1`, `P = n // 2`.  `Int.fdiv` is Python floor division. -/
def derive_params (n : ℤ) : ℤ × ℤ := (n - 1, Int.fdiv n 2)

/-! ## The STS constraint model

The constraint set shared by the backends, embedded from
`Sat_Model.model_satisfiable_constraints` (source/SAT/STS_SAT_satisf.py,
lines 58-111; the MILP and SMT builders assert the same constraints in
their native languages).  A candidate solution is a triple of total
assignments: the upper-triangular match variables `matches[w][i][j]`,
the home flags `home[w][t]` and the period flags `period[w][t][p]`.
All constraints quantify only over `w < n-1`, `t < n`, `p < n/2`.
-/

structure STSSol where
  matchAt : ℕ → ℕ → ℕ → Bool
  home : ℕ → ℕ → Bool
  period : ℕ → ℕ → ℕ → Bool

/-- The opponent literal used by the source for team `t` against `o`:
`matches[w][t][o]` if `t < o` else `matches[w][o][t]`, i.e. the
upper-triangular entry at `(min t o, max t o)`. -/
def matOpp (s : STSSol) (w t o : ℕ) : Bool :=
  s.matchAt w (min t o) (max t o)

theorem matOpp_zero (s : STSSol) (w o : ℕ) :
    matOpp s w 0 o = s.matchAt w 0 o := by
  unfold matOpp
  rw [min_eq_left (Nat.zero_le o), max_eq_right (Nat.zero_le o)]

theorem matOpp_comm (s : STSSol) (w t o : ℕ) :
    matOpp s w t o = matOpp s w o t := by
  unfold matOpp
  rw [min_comm, max_comm]

/-- Every team plays exactly one opponent per week. -/
def oneMatchPerWeek (n : ℕ) (s : STSSol) : Prop :=
  ∀ w < n - 1, ∀ t < n,
    ((Finset.range n).filter fun o => o ≠ t ∧ matOpp s w t o = true).card = 1

/-- Every pair of teams meets exactly once in the tournament. -/
def pairMeetsOnce (n : ℕ) (s : STSSol) : Prop :=
  ∀ i < n, ∀ j < n, i < j →
    ((Finset.range (n - 1)).filter fun w => s.matchAt w i j = true).card = 1

/-- Every team plays in exactly one period per week. -/
def onePeriodPerTeam (n : ℕ) (s : STSSol) : Prop :=
  ∀ w < n - 1, ∀ t < n,
    ((Finset.range (n / 2)).filter fun p => s.period w t p = true).card = 1

/-- Every period hosts exactly two teams per week. -/
def twoTeamsPerPeriod (n : ℕ) (s : STSSol) : Prop :=
  ∀ w < n - 1, ∀ p < n / 2,
    ((Finset.range n).filter fun t => s.period w t p = true).card = 2

/-- Teams that meet in a week share the same period flags. -/
def samePeriodWhenMeet (n : ℕ) (s : STSSol) : Prop :=
  ∀ w < n - 1, ∀ i < n, ∀ j < n, i < j → s.matchAt w i j = true →
    ∀ p < n / 2, s.period w i p = s.period w j p

/-- Teams that meet in a week have opposite home status. -/
def oppositeHome (n : ℕ) (s : STSSol) : Prop :=
  ∀ w < n - 1, ∀ i < n, ∀ j < n, i < j → s.matchAt w i j = true →
    s.home w i ≠ s.home w j

/-- Each team appears at most twice in the same period over the tournament. -/
def periodCap (n : ℕ) (s : STSSol) : Prop :=
  ∀ t < n, ∀ p < n / 2,
    ((Finset.range (n - 1)).filter fun w => s.period w t p = true).card ≤ 2

/-- The full base constraint set. -/
def stsBase (n : ℕ) (s : STSSol) : Prop :=
  oneMatchPerWeek n s ∧ pairMeetsOnce n s ∧ onePeriodPerTeam n s ∧
    twoTeamsPerPeriod n s ∧ samePeriodWhenMeet n s ∧ oppositeHome n s ∧
    periodCap n s

/-! ### The symmetry-breaking rules -/

/-- The week-ordering sum of `Sat_Model.add_symmetry`:
`Sum(If(matches[w][0][opp], opp, 0) for opp in range(1, n))`. -/
def oppSum (n : ℕ) (s : STSSol) (w : ℕ) : ℕ :=
  ∑ o in Finset.Ico 1 n, if s.matchAt w 0 o = true then o else 0

/-- Week-ordering rule (`add_symmetry`, SAT lines 114-119; the MILP and
SMT builders assert the equivalent prefix-sum / strict-increase form):
team 0's opponent index strictly increases week over week. -/
def weekOrdering (n : ℕ) (s : STSSol) : Prop :=
  ∀ w < n - 1, 1 ≤ w → oppSum n s (w - 1) < oppSum n s w

/-- Anchor rule, as asserted by `MILP_Optimization_SB.optimization_milp_model`
(lines 100-105): `opp[0][0][1] == 1`, `home[0][0] == 1`, `home[0][1] == 0`,
`period[0][0][0] == 1`, `period[0][1][0] == 1`. -/
def anchor (s : STSSol) : Prop :=
  s.matchAt 0 0 1 = true ∧ s.home 0 0 = true ∧ s.home 0 1 = false ∧
    s.period 0 0 0 = true ∧ s.period 0 1 0 = true

/-- The symmetry-breaking additions of the SMT optimization model
(`STS_SMT_opt.model_optimized`, lines 101-109): fix the week-0 opponent
of team 0 to 1 and team 0 at home; no period constraint. -/
def smtOptSB (n : ℕ) (s : STSSol) : Prop :=
  s.matchAt 0 0 1 = true ∧ s.home 0 0 = true ∧ weekOrdering n s

/-! ### Helper lemmas -/

theorem filter_card_one_exists {α : Type} {s : Finset α}
    {p : α → Prop} [DecidablePred p] (h : (s.filter p).card = 1) :
    ∃ a ∈ s, p a ∧ ∀ b ∈ s, p b → b = a := by
  obtain ⟨a, ha⟩ := Finset.card_eq_one.mp h
  have haf : a ∈ s.filter p := ha ▸ Finset.mem_singleton_self a
  obtain ⟨has, hap⟩ := Finset.mem_filter.mp haf
  refine ⟨a, has, hap, ?_⟩
  intro b hbs hbp
  have hb : b ∈ s.filter p := Finset.mem_filter.mpr ⟨hbs, hbp⟩
  rw [ha] at hb
  exact Finset.mem_singleton.mp hb

/-- Reindexing a filtered count over `range m` along a permutation of
`range m`. -/
theorem filter_card_reindex (m : ℕ) (f : ℕ → ℕ) (p : ℕ → Prop)
    [DecidablePred p]
    (hmap : ∀ w < m, f w < m)
    (hinj : ∀ w1 < m, ∀ w2 < m, f w1 = f w2 → w1 = w2) :
    ((Finset.range m).filter fun w => p (f w)).card =
      ((Finset.range m).filter p).card := by
  have himg : (Finset.range m).image f = Finset.range m := by
    apply Finset.eq_of_subset_of_card_le
    · intro v hv
      obtain ⟨w, hw, rfl⟩ := Finset.mem_image.mp hv
      exact Finset.mem_range.mpr (hmap w (Finset.mem_range.mp hw))
    · rw [Finset.card_image_of_injOn]
      intro a ha b hb hab
      exact hinj a (Finset.mem_range.mp ha) b (Finset.mem_range.mp hb) hab
  have hsurj : ∀ v < m, ∃ w, w < m ∧ f w = v := by
    intro v hv
    have : v ∈ (Finset.range m).image f := by
      rw [himg]
      exact Finset.mem_range.mpr hv
    obtain ⟨w, hw, hfw⟩ := Finset.mem_image.mp this
    exact ⟨w, Finset.mem_range.mp hw, hfw⟩
  apply Finset.card_bij (fun w _ => f w)
  · intro a ha
    simp only [Finset.mem_filter, Finset.mem_range] at ha ⊢
    exact ⟨hmap a ha.1, ha.2⟩
  · intro a ha b hb hab
    simp only [Finset.mem_filter, Finset.mem_range] at ha hb
    exact hinj a ha.1 b hb.1 hab
  · intro v hv
    simp only [Finset.mem_filter, Finset.mem_range] at hv
    obtain ⟨w, hwm, hfw⟩ := hsurj v hv.1
    refine ⟨w, ?_, hfw⟩
    have hpw : p (f w) := by rw [hfw]; exact hv.2
    simp only [Finset.mem_filter, Finset.mem_range]
    exact ⟨hwm, hpw⟩

/-! ### Solution transformations

The symmetry argument: the base constraint set is invariant under
(1) permuting weeks, (2) flipping the home orientation of the week-0
match of teams 0 and 1, (3) relabelling periods uniformly across weeks.
-/

/-- Apply a week permutation to a solution. -/
def weekPerm (f : ℕ → ℕ) (s : STSSol) : STSSol where
  matchAt := fun w i j => s.matchAt (f w) i j
  home := fun w t => s.home (f w) t
  period := fun w t p => s.period (f w) t p

theorem stsBase_weekPerm (n : ℕ) (s : STSSol) (f : ℕ → ℕ)
    (hs : stsBase n s)
    (hmap : ∀ w < n - 1, f w < n - 1)
    (hinj : ∀ w1 < n - 1, ∀ w2 < n - 1, f w1 = f w2 → w1 = w2) :
    stsBase n (weekPerm f s) := by
  obtain ⟨h1, h2, h3, h4, h5, h6, h7⟩ := hs
  refine ⟨?_, ?_, ?_, ?_, ?_, ?_, ?_⟩
  · intro w hw t ht
    exact h1 (f w) (hmap w hw) t ht
  · intro i hi j hj hij
    have := filter_card_reindex (n - 1) f
      (fun w => s.matchAt w i j = true) hmap hinj
    rw [show ((Finset.range (n - 1)).filter
        fun w => (weekPerm f s).matchAt w i j = true) =
      ((Finset.range (n - 1)).filter
        fun w => s.matchAt (f w) i j = true) from rfl, this]
    exact h2 i hi j hj hij
  · intro w hw t ht
    exact h3 (f w) (hmap w hw) t ht
  · intro w hw p hp
    exact h4 (f w) (hmap w hw) p hp
  · intro w hw i hi j hj hij hm
    exact h5 (f w) (hmap w hw) i hi j hj hij hm
  · intro w hw i hi j hj hij hm
    exact h6 (f w) (hmap w hw) i hi j hj hij hm
  · intro t ht p hp
    have := filter_card_reindex (n - 1) f
      (fun w => s.period w t p = true) hmap hinj
    rw [show ((Finset.range (n - 1)).filter
        fun w => (weekPerm f s).period w t p = true) =
      ((Finset.range (n - 1)).filter
        fun w => s.period (f w) t p = true) from rfl, this]
    exact h7 t ht p hp

/-- Fix the home orientation of the week-0 match of teams 0 and 1:
team 0 home, team 1 away; all other flags unchanged. -/
def homePatch (s : STSSol) : STSSol where
  matchAt := s.matchAt
  home := fun w t =>
    if w = 0 then (if t = 0 then true else if t = 1 then false else s.home w t)
    else s.home w t
  period := s.period

/-- In a base-satisfying solution where teams 0 and 1 meet in week 0,
no other week-0 match involves team 0 or team 1, so re-orienting that
single match preserves the base constraints. -/
theorem stsBase_homePatch (n : ℕ) (s : STSSol) (hn : 2 ≤ n)
    (hs : stsBase n s) (h01 : s.matchAt 0 0 1 = true) :
    stsBase n (homePatch s) := by
  obtain ⟨h1, h2, h3, h4, h5, h6, h7⟩ := hs
  have hw0 : 0 < n - 1 := by omega
  refine ⟨h1, h2, h3, h4, h5, ?_, h7⟩
  intro w hw i hi j hj hij hm
  by_cases hwz : w = 0
  · subst hwz
    by_cases hiz : i = 0
    · subst hiz
      have hj1 : j = 1 := by
        by_contra hj1
        have hu := filter_card_one_exists (h1 0 hw0 0 (by omega))
        obtain ⟨a, _, _, huniq⟩ := hu
        have e1 : (1 : ℕ) = a := by
          refine huniq 1 (Finset.mem_range.mpr (by omega)) ⟨by omega, ?_⟩
          rw [matOpp_zero]
          exact h01
        have ej : j = a := by
          refine huniq j (Finset.mem_range.mpr hj) ⟨by omega, ?_⟩
          rw [matOpp_zero]
          exact hm
        omega
      subst hj1
      simp [homePatch]
    · by_cases hi1 : i = 1
      · subst hi1
        exfalso
        have hu := filter_card_one_exists (h1 0 hw0 1 (by omega))
        obtain ⟨a, _, _, huniq⟩ := hu
        have e0 : (0 : ℕ) = a := by
          refine huniq 0 (Finset.mem_range.mpr (by omega)) ⟨by omega, ?_⟩
          rw [matOpp_comm, matOpp_zero]
          exact h01
        have ej : j = a := by
          refine huniq j (Finset.mem_range.mpr hj) ⟨by omega, ?_⟩
          unfold matOpp
          rw [min_eq_left (by omega), max_eq_right (by omega)]
          exact hm
        omega
      · -- i ≥ 2, hence j ≥ 3: home flags of both teams unchanged
        have hj2 : j ≠ 0 := by omega
        have hj1 : j ≠ 1 := by omega
        have hres := h6 0 hw0 i hi j hj hij hm
        show (if i = 0 then true else if i = 1 then false else s.home 0 i) ≠
          (if j = 0 then true else if j = 1 then false else s.home 0 j)
        rw [if_neg hiz, if_neg hi1, if_neg hj2, if_neg hj1]
        exact hres
  · have hres := h6 w hw i hi j hj hij hm
    show (if w = 0 then _ else s.home w i) ≠ (if w = 0 then _ else s.home w j)
    rw [if_neg hwz, if_neg hwz]
    exact hres

/-- Swap period labels 0 and q uniformly across all weeks. -/
def periodSwap (q : ℕ) (s : STSSol) : STSSol where
  matchAt := s.matchAt
  home := s.home
  period := fun w t p => s.period w t (if p = 0 then q else if p = q then 0 else p)

theorem periodSwapFun_invol (q p : ℕ) :
    (if (if p = 0 then q else if p = q then 0 else p) = 0 then q
      else if (if p = 0 then q else if p = q then 0 else p) = q then 0
      else (if p = 0 then q else if p = q then 0 else p)) = p := by
  by_cases hp0 : p = 0 <;> by_cases hpq : p = q <;> by_cases hq0 : q = 0 <;>
    simp_all

theorem stsBase_periodSwap (n : ℕ) (s : STSSol) (q : ℕ) (hq : q < n / 2)
    (hs : stsBase n s) : stsBase n (periodSwap q s) := by
  obtain ⟨h1, h2, h3, h4, h5, h6, h7⟩ := hs
  have hmap : ∀ p < n / 2, (if p = 0 then q else if p = q then 0 else p) < n / 2 := by
    intro p hp
    by_cases hp0 : p = 0
    · simpa [hp0] using hq
    · by_cases hpq : p = q
      · simp only [if_neg hp0, if_pos hpq]
        omega
      · simpa [hp0, hpq] using hp
  have hinj : ∀ p1 < n / 2, ∀ p2 < n / 2,
      (if p1 = 0 then q else if p1 = q then 0 else p1) =
        (if p2 = 0 then q else if p2 = q then 0 else p2) → p1 = p2 := by
    intro p1 _ p2 _ h
    have := periodSwapFun_invol q p1
    have := periodSwapFun_invol q p2
    by_cases h10 : p1 = 0 <;> by_cases h1q : p1 = q <;>
      by_cases h20 : p2 = 0 <;> by_cases h2q : p2 = q <;> simp_all
  refine ⟨h1, h2, ?_, ?_, ?_, h6, ?_⟩
  · intro w hw t ht
    have := filter_card_reindex (n / 2)
      (fun p => if p = 0 then q else if p = q then 0 else p)
      (fun p => s.period w t p = true) hmap hinj
    rw [show ((Finset.range (n / 2)).filter
        fun p => (periodSwap q s).period w t p = true) =
      ((Finset.range (n / 2)).filter fun p =>
        s.period w t (if p = 0 then q else if p = q then 0 else p) = true)
        from rfl, this]
    exact h3 w hw t ht
  · intro w hw p hp
    exact h4 w hw _ (hmap p hp)
  · intro w hw i hi j hj hij hm p hp
    exact h5 w hw i hi j hj hij hm _ (hmap p hp)
  · intro t ht p hp
    exact h7 t ht _ (hmap p hp)

/-- Team 0 has a unique opponent in every week. -/
theorem team0_opponent (n : ℕ) (s : STSSol) (h1 : oneMatchPerWeek n s)
    (w : ℕ) (hw : w < n - 1) :
    ∃ o, o < n ∧ 1 ≤ o ∧ s.matchAt w 0 o = true ∧
      ∀ b, b < n → 1 ≤ b → s.matchAt w 0 b = true → b = o := by
  have hn0 : 0 < n := by omega
  obtain ⟨a, ha, hap, huniq⟩ := filter_card_one_exists (h1 w hw 0 hn0)
  have haN : a < n := Finset.mem_range.mp ha
  have ha0 : a ≠ 0 := hap.1
  have hamat : s.matchAt w 0 a = true := by
    rw [← matOpp_zero]
    exact hap.2
  refine ⟨a, haN, by omega, hamat, ?_⟩
  intro b hbN hb1 hbmat
  refine huniq b (Finset.mem_range.mpr hbN) ⟨by omega, ?_⟩
  rw [matOpp_zero]
  exact hbmat

/-- The week-ordering sum evaluates to team 0's unique opponent. -/
theorem oppSum_eq (n : ℕ) (s : STSSol) (w o : ℕ) (ho1 : 1 ≤ o) (hoN : o < n)
    (hmat : s.matchAt w 0 o = true)
    (huniq : ∀ b, b < n → 1 ≤ b → s.matchAt w 0 b = true → b = o) :
    oppSum n s w = o := by
  unfold oppSum
  rw [Finset.sum_eq_single o]
  · rw [if_pos hmat]
  · intro b hb hbo
    have hbI := Finset.mem_Ico.mp hb
    by_cases hbmat : s.matchAt w 0 b = true
    · exact absurd (huniq b hbI.2 hbI.1 hbmat) hbo
    · rw [if_neg hbmat]
  · intro ho
    exact absurd (Finset.mem_Ico.mpr ⟨ho1, hoN⟩) ho

/-- Key preservation result: any base-satisfying solution can be
transformed (sorting weeks by team 0's opponent, re-orienting the
week-0 match, swapping two period labels globally) into one that also
satisfies the week-ordering rule and the full anchor rule. -/
theorem sb_transform (n : ℕ) (hn : 2 ≤ n) (s : STSSol) (hs : stsBase n s) :
    ∃ t, stsBase n t ∧ weekOrdering n t ∧ anchor t := by
  have hex : ∀ k, ∃ w, 1 ≤ k → k < n →
      w < n - 1 ∧ s.matchAt w 0 k = true ∧
        ∀ w2, w2 < n - 1 → s.matchAt w2 0 k = true → w2 = w := by
    intro k
    by_cases hk : 1 ≤ k ∧ k < n
    · obtain ⟨w, hwmem, hwp, huniq⟩ :=
        filter_card_one_exists (hs.2.1 0 (by omega) k hk.2 (by omega))
      refine ⟨w, fun _ _ => ⟨Finset.mem_range.mp hwmem, hwp, ?_⟩⟩
      intro w2 hw2 hmat2
      exact huniq w2 (Finset.mem_range.mpr hw2) hmat2
    · exact ⟨0, fun hk1 hk2 => absurd ⟨hk1, hk2⟩ hk⟩
  choose wk hwk using hex
  have hmap : ∀ w < n - 1, (fun w => wk (w + 1)) w < n - 1 :=
    fun w hw => (hwk (w + 1) (by omega) (by omega)).1
  have hmat1 : ∀ w < n - 1, s.matchAt (wk (w + 1)) 0 (w + 1) = true :=
    fun w hw => (hwk (w + 1) (by omega) (by omega)).2.1
  have hinj : ∀ w1 < n - 1, ∀ w2 < n - 1,
      (fun w => wk (w + 1)) w1 = (fun w => wk (w + 1)) w2 → w1 = w2 := by
    intro w1 hw1 w2 hw2 heq
    simp only [] at heq
    obtain ⟨o, hoN, ho1, homat, houniq⟩ :=
      team0_opponent n s hs.1 (wk (w1 + 1)) (hmap w1 hw1)
    have e1 : w1 + 1 = o := houniq (w1 + 1) (by omega) (by omega) (hmat1 w1 hw1)
    have e2 : w2 + 1 = o := by
      refine houniq (w2 + 1) (by omega) (by omega) ?_
      rw [heq]
      exact hmat1 w2 hw2
    omega
  have hs1 : stsBase n (weekPerm (fun w => wk (w + 1)) s) :=
    stsBase_weekPerm n s (fun w => wk (w + 1)) hs hmap hinj
  have hs1mat : ∀ w < n - 1,
      (weekPerm (fun w => wk (w + 1)) s).matchAt w 0 (w + 1) = true := hmat1
  have hs1uniq : ∀ w < n - 1, ∀ b, b < n → 1 ≤ b →
      (weekPerm (fun w => wk (w + 1)) s).matchAt w 0 b = true → b = w + 1 := by
    intro w hw b hbN hb1 hbmat
    obtain ⟨o, hoN, ho1, homat, houniq⟩ :=
      team0_opponent n (weekPerm (fun w => wk (w + 1)) s) hs1.1 w hw
    have e1 := houniq b hbN hb1 hbmat
    have e2 := houniq (w + 1) (by omega) (by omega) (hs1mat w hw)
    omega
  have hOppSum : ∀ w < n - 1,
      oppSum n (weekPerm (fun w => wk (w + 1)) s) w = w + 1 := by
    intro w hw
    exact oppSum_eq n _ w (w + 1) (by omega) (by omega) (hs1mat w hw)
      (fun b hbN hb1 hbmat => hs1uniq w hw b hbN hb1 hbmat)
  have h01 : (weekPerm (fun w => wk (w + 1)) s).matchAt 0 0 1 = true :=
    hs1mat 0 (by omega)
  have hs2 : stsBase n (homePatch (weekPerm (fun w => wk (w + 1)) s)) :=
    stsBase_homePatch n _ hn hs1 h01
  obtain ⟨q, hqmem, hqp, _⟩ :=
    filter_card_one_exists (hs2.2.2.1 0 (by omega) 0 (by omega))
  have hqP : q < n / 2 := Finset.mem_range.mp hqmem
  have hs3 : stsBase n
      (periodSwap q (homePatch (weekPerm (fun w => wk (w + 1)) s))) :=
    stsBase_periodSwap n _ q hqP hs2
  refine ⟨periodSwap q (homePatch (weekPerm (fun w => wk (w + 1)) s)),
    hs3, ?_, ?_⟩
  · intro w hw hw1
    have e1 : oppSum n
        (periodSwap q (homePatch (weekPerm (fun w => wk (w + 1)) s))) (w - 1) =
        (w - 1) + 1 := hOppSum (w - 1) (by omega)
    have e2 : oppSum n
        (periodSwap q (homePatch (weekPerm (fun w => wk (w + 1)) s))) w =
        w + 1 := hOppSum w hw
    omega
  · refine ⟨h01, rfl, rfl, hqp, ?_⟩
    have hsame := hs2.2.2.2.2.1 0 (by omega) 0 (by omega) 1 (by omega)
      (by omega) h01 q hqP
    show (homePatch (weekPerm (fun w => wk (w + 1)) s)).period 0 1 q = true
    rw [← hsame]
    exact hqp

/-- Under the base constraints, the week-ordering rule alone already
forces team 0's week-0 opponent to be team 1. -/
theorem weekOrdering_forces_first_opponent (n : ℕ) (hn : 2 ≤ n) (s : STSSol)
    (hbase : stsBase n s) (hord : weekOrdering n s) :
    s.matchAt 0 0 1 = true := by
  have hsum : ∀ w < n - 1, ∃ o, o < n ∧ 1 ≤ o ∧ s.matchAt w 0 o = true ∧
      oppSum n s w = o := by
    intro w hw
    obtain ⟨o, hoN, ho1, hmat, huniq⟩ := team0_opponent n s hbase.1 w hw
    exact ⟨o, hoN, ho1, hmat, oppSum_eq n s w o ho1 hoN hmat huniq⟩
  have hgrow : ∀ w < n - 1, oppSum n s 0 + w ≤ oppSum n s w := by
    intro w
    induction w with
    | zero => intro _; omega
    | succ v ih =>
      intro hv
      have hlt : oppSum n s v < oppSum n s (v + 1) :=
        hord (v + 1) hv (by omega)
      have hih := ih (by omega)
      omega
  obtain ⟨o0, ho0N, ho01, hmat0, hsum0⟩ := hsum 0 (by omega)
  obtain ⟨oL, hoLN, _, _, hsumL⟩ := hsum (n - 2) (by omega)
  have hG := hgrow (n - 2) (by omega)
  have ho0 : o0 = 1 := by omega
  rwa [ho0] at hmat0

/-! ### Decidability of the constraint set (for concrete instances) -/

instance (n : ℕ) (s : STSSol) : Decidable (oneMatchPerWeek n s) := by
  unfold oneMatchPerWeek; infer_instance

instance (n : ℕ) (s : STSSol) : Decidable (pairMeetsOnce n s) := by
  unfold pairMeetsOnce; infer_instance

instance (n : ℕ) (s : STSSol) : Decidable (onePeriodPerTeam n s) := by
  unfold onePeriodPerTeam; infer_instance

instance (n : ℕ) (s : STSSol) : Decidable (twoTeamsPerPeriod n s) := by
  unfold twoTeamsPerPeriod; infer_instance

instance (n : ℕ) (s : STSSol) : Decidable (samePeriodWhenMeet n s) :=
  haveI inner : ∀ (w : ℕ), w < n - 1 →
      Decidable (∀ i < n, ∀ j < n, i < j → s.matchAt w i j = true →
        ∀ p < n / 2, s.period w i p = s.period w j p) :=
    fun _ _ => inferInstance
  Nat.decidableBallLT (n - 1) _

instance (n : ℕ) (s : STSSol) : Decidable (oppositeHome n s) := by
  unfold oppositeHome; infer_instance

instance (n : ℕ) (s : STSSol) : Decidable (periodCap n s) := by
  unfold periodCap; infer_instance

instance (n : ℕ) (s : STSSol) : Decidable (stsBase n s) := by
  unfold stsBase; infer_instance

instance (n : ℕ) (s : STSSol) : Decidable (weekOrdering n s) := by
  unfold weekOrdering; infer_instance

instance (s : STSSol) : Decidable (anchor s) := by
  unfold anchor; infer_instance

instance (n : ℕ) (s : STSSol) : Decidable (smtOptSB n s) := by
  unfold smtOptSB; infer_instance

/-! ### Concrete instances -/

/-- A concrete valid schedule for n = 2: one week, one period,
team 0 at home against team 1. -/
def sol2 : STSSol where
  matchAt := fun w i j => w == 0 && i == 0 && j == 1
  home := fun _ t => t == 0
  period := fun w t p => w == 0 && p == 0 && (t == 0 || t == 1)

/-- The n = 2 schedule with the home orientation reversed: satisfies the
base constraints and the week-ordering rule, but not the anchor. -/
def sol2b : STSSol where
  matchAt := fun w i j => w == 0 && i == 0 && j == 1
  home := fun _ t => t == 1
  period := fun w t p => w == 0 && p == 0 && (t == 0 || t == 1)

theorem pyRound_intCast (z : ℤ) : pyRound ((z : ℤ) : ℚ) = z := by
  unfold pyRound
  rw [Int.floor_intCast]
  rw [if_pos]
  norm_num

/-! ## Claims -/

/-- C1: for an optimization-model run whose solve produces a complete
schedule, each backend persists `optimal = true` exactly when the solver
asserts proof of optimality (PuLP status `Optimal`, the MiniZinc
optimality marker, the SMT optimal flag) AND the reported objective
equals the theoretical minimum n-2; a feasible-but-unproven or
off-optimum result is persisted with `optimal = false`. -/
theorem C1_optimal_flag_requires_proof_and_min_objective
    (n timeLimit : ℤ) (st : LpStatusT) (anyVar : Bool)
    (schedule : List (List (Option (ℕ × ℕ)))) (breaks : ℤ) (t : ℚ)
    (output : List Char) (m : ℤ) (pp ap : List (List (ℕ × ℕ)))
    (b : ℤ) (tm : Option ℚ)
    (objS : ℤ) (optIn : Bool) (t2 : ℚ) (solS : List (List (ℕ × ℕ)))
    (hmilp : lp_has_solution st anyVar = true)
    (hcomp : schedule_complete schedule = true)
    (hunsat : cp_unsat_detected output = false) :
    ((mip_solve_result n true st anyVar schedule breaks t timeLimit).optimal = true
      ↔ (st = .Optimal ∧ breaks = n - 2)) ∧
    ((cp_parse_minizinc_output output true (some m) pp ap (some b) tm).optimal = true
      ↔ (cp_optimality_marker output = true ∧ b = m - 2)) ∧
    ((smt_save_opt m true (some objS) optIn t2 solS).optimal = true
      ↔ (optIn = true ∧ objS = m - 2)) := by
  refine ⟨?_, ?_, ?_⟩
  · simp [mip_solve_result, hmilp, hcomp]
  · simp [cp_parse_minizinc_output, hunsat]
  · simp [smt_save_opt]

theorem C1_optimal_flag_requires_proof_and_min_objective_witness :
    ((mip_solve_result 6 true .Optimal true [[some (1, 2)]] 4 10 300).optimal = true
      ↔ (LpStatusT.Optimal = .Optimal ∧ (4 : ℤ) = 6 - 2)) ∧
    ((cp_parse_minizinc_output [] true (some 6) [] [] (some 4) none).optimal = true
      ↔ (cp_optimality_marker [] = true ∧ (4 : ℤ) = 6 - 2)) ∧
    ((smt_save_opt 6 true (some 4) true 10 []).optimal = true
      ↔ (true = true ∧ (4 : ℤ) = 6 - 2)) :=
  C1_optimal_flag_requires_proof_and_min_objective 6 300 .Optimal true
    [[some (1, 2)]] 4 10 [] 6 [] [] 4 none 4 true 10 []
    (by decide) (by decide) (by decide)

/-- C2: the pairwise and the Heule exactly-one encodings are
semantically interchangeable for every k >= 1: each accepts exactly the
assignments with precisely one true input proposition (the Heule
encoding after choosing the auxiliary variables), and for k = 1 the
at-most-one parts impose no constraint. -/
theorem C2_exactly_one_encodings_equivalent (l : List Bool)
    (hk : 1 ≤ l.length) :
    (exactly_one_np l = true ↔ l.count true = 1) ∧
    (exactly_one_he l = true ↔ l.count true = 1) ∧
    exactly_one_np l = exactly_one_he l ∧
    (l.length = 1 → at_most_one_np l = true ∧ at_most_one_he l = true) := by
  refine ⟨exactly_one_np_iff l, exactly_one_he_iff l, ?_, ?_⟩
  · have h1 := exactly_one_np_iff l
    have h2 := exactly_one_he_iff l
    cases hnp : exactly_one_np l <;> cases hhe : exactly_one_he l <;>
      simp_all
  · intro h1
    match l, h1 with
    | [a], _ =>
      constructor
      · rfl
      · rw [at_most_one_he]
        rw [if_pos (by simp)]
        rfl

theorem C2_exactly_one_encodings_equivalent_witness :
    ((exactly_one_np [true, false] = true ↔ [true, false].count true = 1) ∧
    (exactly_one_he [true, false] = true ↔ [true, false].count true = 1) ∧
    exactly_one_np [true, false] = exactly_one_he [true, false] ∧
    ([true, false].length = 1 →
      at_most_one_np [true, false] = true ∧
        at_most_one_he [true, false] = true)) :=
  C2_exactly_one_encodings_equivalent [true, false] (by decide)

/-- C3: for every even n >= 2 whose base STS constraint set is
satisfiable, adding the symmetry-breaking rules (the full anchor and the
week-ordering rule, hence every backend's subset of them, including the
SMT variant's partial anchor) keeps the constraint set satisfiable. -/
theorem C3_symmetry_breaking_preserves_satisfiability (n : ℕ)
    (hn : 2 ≤ n) (hev : n % 2 = 0) (hsat : ∃ s, stsBase n s) :
    ∃ s, stsBase n s ∧ weekOrdering n s ∧ anchor s ∧ smtOptSB n s := by
  obtain ⟨s0, hs0⟩ := hsat
  obtain ⟨s, hbase, hord, hanch⟩ := sb_transform n hn s0 hs0
  exact ⟨s, hbase, hord, hanch, hanch.1, hanch.2.1, hord⟩

theorem C3_symmetry_breaking_preserves_satisfiability_witness :
    ∃ s, stsBase 2 s ∧ weekOrdering 2 s ∧ anchor s ∧ smtOptSB 2 s :=
  C3_symmetry_breaking_preserves_satisfiability 2 (by decide) (by decide)
    ⟨sol2, by decide⟩

/-- C4: a solve in which the solver proves infeasibility (an
UNSATISFIABLE text log, or a quickly-returned UNSAT answer: infeasible
status solved in under 1 second for MILP, non-timeout infeasibility for
SAT/SMT) is persisted with `optimal = true`, `sol = []`, `obj = null`. -/
theorem C4_infeasibility_certified_optimal
    (output : List Char) (isOpt : Bool) (nn : Option ℤ)
    (pp ap : List (List (ℕ × ℕ))) (op : Option ℤ) (tm : Option ℚ)
    (tS : ℚ) (solS : List (List (Option (ℕ × ℕ))))
    (n timeLimit : ℤ) (st : LpStatusT) (anyVar : Bool)
    (schedule : List (List (Option (ℕ × ℕ)))) (breaks : ℤ)
    (isOpt2 : Bool) (tM : ℚ) (tZ : ℚ) (solZ : List (List (ℕ × ℕ)))
    (hunsat : cp_unsat_detected output = true)
    (hsat_t : tS < 299)
    (hmilp : lp_has_solution st anyVar = false) (hmilp_t : tM < 1)
    (hsmt_t : tZ < 299) :
    cp_parse_minizinc_output output isOpt nn pp ap op tm =
      ⟨0, true, none, []⟩ ∧
    sat_save_result false tS solS = ⟨(pyRound tS : ℤ), true, none, []⟩ ∧
    mip_solve_result n isOpt2 st anyVar schedule breaks tM timeLimit =
      ⟨(pyRound tM : ℤ), true, none, []⟩ ∧
    smt_save_satisf false tZ solZ = ⟨(pyRound tZ : ℤ), true, none, []⟩ := by
  refine ⟨?_, ?_, ?_, ?_⟩
  · simp [cp_parse_minizinc_output, hunsat]
  · rw [sat_save_result, if_neg (by simp), if_neg (not_le.mpr hsat_t)]
  · rw [mip_solve_result, if_neg (by simp [hmilp]), if_pos hmilp_t]
  · rw [smt_save_satisf, if_neg (by simp), if_neg (not_le.mpr hsmt_t)]

theorem C4_infeasibility_certified_optimal_witness :
    cp_parse_minizinc_output ("UNSATISFIABLE".toList) false none [] [] none none =
      ⟨0, true, none, []⟩ ∧
    sat_save_result false 5 [] = ⟨(pyRound 5 : ℤ), true, none, []⟩ ∧
    mip_solve_result 6 false .Infeasible false [] 0 0 300 =
      ⟨(pyRound 0 : ℤ), true, none, []⟩ ∧
    smt_save_satisf false 7 [] = ⟨(pyRound 7 : ℤ), true, none, []⟩ :=
  C4_infeasibility_certified_optimal ("UNSATISFIABLE".toList) false none [] []
    none none 5 [] 6 300 .Infeasible false [] 0 false 0 7 []
    (by decide) (by norm_num) (by decide) (by norm_num) (by norm_num)

/-- C5 counterexample: a complete n = 2 solution that satisfies the base
constraints and the SAT backend's symmetry-breaking additions (the
week-ordering rule is all that `Sat_Model.add_symmetry` asserts), yet
violates the anchor: team 0 is away in week 0.  So it is false that
every backend's symmetry-breaking variant fixes the week-0 match with
team 0 at home and both teams in period 0. -/
theorem C5_counterexample :
    stsBase 2 sol2b ∧ weekOrdering 2 sol2b ∧ ¬ anchor sol2b := by decide

/-- C5 amended: only the MILP optimization symmetry-breaking variant
asserts the full anchor (week-0 match 0 vs 1, team 0 home, both teams
in period 0); the SMT optimization variant fixes only the pairing and
team 0's home flag; the SAT variant adds only the week-ordering rule.
That rule, combined with the base constraints, still forces the week-0
match of team 0 to be against team 1, but leaves home orientation and
period placement free. -/
theorem C5_amended_week_ordering_forces_pairing_only (n : ℕ) (hn : 2 ≤ n)
    (s : STSSol) (hbase : stsBase n s) (hord : weekOrdering n s) :
    s.matchAt 0 0 1 = true :=
  weekOrdering_forces_first_opponent n hn s hbase hord

theorem C5_amended_week_ordering_forces_pairing_only_witness :
    sol2.matchAt 0 0 1 = true :=
  C5_amended_week_ordering_forces_pairing_only 2 (by decide) sol2
    (by decide) (by decide)

/-- C6 counterexample: in the MILP backend a satisfiability run whose
solver stops with status Not Solved but leaves a complete extracted
schedule (solver timeout with an incumbent) is persisted with
`optimal = false`, contradicting the claim that every
satisfiability-model run with a complete schedule gets
`optimal = true`. -/
theorem C6_counterexample :
    lp_has_solution .NotSolved true = true ∧
    schedule_complete [[some (1, 2)]] = true ∧
    (mip_solve_result 2 false .NotSolved true [[some (1, 2)]] 0 50 300).optimal
      = false :=
  ⟨rfl, rfl, rfl⟩

/-- C6 amended: a satisfiability-model run with a complete schedule is
persisted with `optimal = true` in the SAT and SMT backends, and in the
CP backend whenever the solution/optimality marker is present; the MILP
backend instead sets `optimal = (solver status == Optimal)`, so a
complete schedule under a non-Optimal status is persisted with
`optimal = false`. -/
theorem C6_amended_satisfiability_optimal_flag
    (tS tZ t : ℚ) (solS : List (List (Option (ℕ × ℕ))))
    (solZ : List (List (ℕ × ℕ)))
    (n timeLimit : ℤ) (st : LpStatusT) (anyVar : Bool)
    (schedule : List (List (Option (ℕ × ℕ)))) (breaks : ℤ)
    (output : List Char) (nn : Option ℤ) (pp ap : List (List (ℕ × ℕ)))
    (op : Option ℤ) (tm : Option ℚ)
    (hmilp : lp_has_solution st anyVar = true)
    (hcomp : schedule_complete schedule = true)
    (hunsat : cp_unsat_detected output = false)
    (hmark : cp_optimality_marker output = true) :
    (sat_save_result true tS solS).optimal = true ∧
    (smt_save_satisf true tZ solZ).optimal = true ∧
    ((mip_solve_result n false st anyVar schedule breaks t timeLimit).optimal
      = true ↔ st = .Optimal) ∧
    (cp_parse_minizinc_output output false nn pp ap op tm).optimal = true := by
  refine ⟨rfl, rfl, ?_, ?_⟩
  · simp [mip_solve_result, hmilp, hcomp]
  · simp only [cp_parse_minizinc_output, hunsat, Bool.false_eq_true, if_false]
    cases nn <;> cases op <;> simp [hmark]

theorem C6_amended_satisfiability_optimal_flag_witness :
    (sat_save_result true 12 [[some (1, 2)]]).optimal = true ∧
    (smt_save_satisf true 12 [[(1, 2)]]).optimal = true ∧
    ((mip_solve_result 2 false .Optimal true [[some (1, 2)]] 0 12 300).optimal
      = true ↔ LpStatusT.Optimal = .Optimal) ∧
    (cp_parse_minizinc_output ("----------".toList) false none [] [] none
      none).optimal = true :=
  C6_amended_satisfiability_optimal_flag 12 12 12 [[some (1, 2)]] [[(1, 2)]]
    2 300 .Optimal true [[some (1, 2)]] 0 ("----------".toList) none [] []
    none none (by decide) (by decide) (by decide) (by decide)

/-- C7 counterexample: the SMT optimization save path that keeps a
best-found schedule persists `round(elapsed)` without clamping: a run
whose elapsed time is 311 seconds (over the 300-second budget, best
schedule kept, optimal flag already false) is recorded with time 311,
not 300 - exceeding the configured limit plus the 5-second buffer the
CP backend uses.  So it is false that the persisted time never exceeds
the limit plus a small fixed buffer, and false that every
budget-exceeding run is recorded with time = 300. -/
theorem C7_counterexample :
    (smt_save_opt 6 true (some 5) false 311 [[(1, 2)]]).time = 311 ∧
    (300 : ℚ) + 5 < (smt_save_opt 6 true (some 5) false 311 [[(1, 2)]]).time ∧
    (smt_save_opt 6 true (some 5) false 311 [[(1, 2)]]).optimal = false := by
  have h : (smt_save_opt 6 true (some 5) false 311 [[(1, 2)]]).time = 311 := by
    show ((pyRound 311 : ℤ) : ℚ) = 311
    rw [show (311 : ℚ) = ((311 : ℤ) : ℚ) by norm_num, pyRound_intCast]
  refine ⟨h, ?_, rfl⟩
  rw [h]
  norm_num

/-- C7 amended: the MILP record time is clamped to the limit by
`min(round(t), limit)`; the CP safeguard clamps to the limit whenever
the measured time exceeds limit + 5, so the persisted CP time never
exceeds limit + 5; the SAT and SMT no-solution timeout paths
(t >= 299) record exactly time = 300 with optimal = false and empty
schedule; the SMT optimization path that keeps a best-found schedule
persists it with optimal = false and obj intact, but with
time = round(elapsed), unclamped. -/
theorem C7_amended_time_clamping {σ : Type}
    (n timeLimit : ℤ) (st : LpStatusT) (anyVar : Bool)
    (schedule : List (List (Option (ℕ × ℕ)))) (breaks : ℤ) (isOpt : Bool)
    (tM : ℚ) (L : ℚ) (r : BenchRecord σ)
    (tS : ℚ) (solS : List (List (Option (ℕ × ℕ))))
    (m b : ℤ) (tZ tB : ℚ) (solB : List (List (ℕ × ℕ)))
    (hL : 1 ≤ timeLimit)
    (hsat : 299 ≤ tS)
    (hz : 299 ≤ tZ) :
    (mip_solve_result n isOpt st anyVar schedule breaks tM timeLimit).time
      ≤ (timeLimit : ℚ) ∧
    (cp_time_guard L r).time ≤ L + 5 ∧
    sat_save_result false tS solS = ⟨300, false, none, []⟩ ∧
    smt_save_opt m false none true tZ [] = ⟨300, false, none, []⟩ ∧
    ((smt_save_opt m true (some b) false tB solB).time
        = ((pyRound tB : ℤ) : ℚ) ∧
      (smt_save_opt m true (some b) false tB solB).optimal = false ∧
      (smt_save_opt m true (some b) false tB solB).obj = some b ∧
      (smt_save_opt m true (some b) false tB solB).sol = solB) := by
  refine ⟨?_, ?_, ?_, ?_, rfl, rfl, rfl, rfl⟩
  · unfold mip_solve_result
    split_ifs with h1 h2 h3 h4
    · show ((min (pyRound tM) timeLimit : ℤ) : ℚ) ≤ (timeLimit : ℚ)
      exact_mod_cast min_le_right _ _
    · show ((min (pyRound tM) timeLimit : ℤ) : ℚ) ≤ (timeLimit : ℚ)
      exact_mod_cast min_le_right _ _
    · show ((min (pyRound tM) timeLimit : ℤ) : ℚ) ≤ (timeLimit : ℚ)
      exact_mod_cast min_le_right _ _
    · show ((pyRound tM : ℤ) : ℚ) ≤ (timeLimit : ℚ)
      have hb : pyRound tM ≤ 1 := pyRound_le tM 1 (by exact_mod_cast le_of_lt h4)
      exact_mod_cast le_trans hb hL
    · show ((min (pyRound tM) timeLimit : ℤ) : ℚ) ≤ (timeLimit : ℚ)
      exact_mod_cast min_le_right _ _
  · unfold cp_time_guard
    split_ifs with h1
    · show L ≤ L + 5
      linarith
    · exact le_of_not_lt h1
  · rw [sat_save_result, if_neg (by simp), if_pos hsat]
  · rw [smt_save_opt, if_neg (by simp), if_pos hz]

theorem C7_amended_time_clamping_witness :
    (mip_solve_result 6 true .Optimal true [[some (1, 2)]] 4 400 300).time
      ≤ ((300 : ℤ) : ℚ) ∧
    (cp_time_guard 300 (⟨312, true, none, ([] : List ℕ)⟩ : BenchRecord ℕ)).time
      ≤ 300 + 5 ∧
    sat_save_result false 305 [] = ⟨300, false, none, []⟩ ∧
    smt_save_opt 6 false none true 305 [] = ⟨300, false, none, []⟩ ∧
    ((smt_save_opt 6 true (some 5) false 100 [[(1, 2)]]).time
        = ((pyRound 100 : ℤ) : ℚ) ∧
      (smt_save_opt 6 true (some 5) false 100 [[(1, 2)]]).optimal = false ∧
      (smt_save_opt 6 true (some 5) false 100 [[(1, 2)]]).obj = some 5 ∧
      (smt_save_opt 6 true (some 5) false 100 [[(1, 2)]]).sol = [[(1, 2)]]) :=
  C7_amended_time_clamping 6 300 .Optimal true [[some (1, 2)]] 4 true 400 300
    (⟨312, true, none, ([] : List ℕ)⟩ : BenchRecord ℕ) 305 [] 6 5 305 100
    [[(1, 2)]] (by decide) (by norm_num) (by norm_num)

/-- C8 counterexample: the CLI validation only tests parity, so the
even team count n = 0, which the claim says must be rejected (n < 2),
is accepted. -/
theorem C8_counterexample : teams_check 0 = true ∧ (0 : ℤ) < 2 := by decide

/-- C8 amended: the program rejects an integer team count n (usage
error, exit status 1) exactly when n is odd; even n < 2 (0, -2, ...)
passes the check.  For accepted (even) n the model builders derive
W = n - 1 weeks and P = n // 2 periods (with 2P = n). -/
theorem C8_amended_parity_only_validation (n : ℤ) :
    (teams_check n = true ↔ n % 2 = 0) ∧
    (teams_check n = true →
      (derive_params n).1 = n - 1 ∧ 2 * (derive_params n).2 = n) := by
  constructor
  · simp [teams_check]
  · intro h
    have hev : n % 2 = 0 := by simpa [teams_check] using h
    refine ⟨rfl, ?_⟩
    show 2 * Int.fdiv n 2 = n
    rw [Int.fdiv_eq_ediv _ (by norm_num)]
    omega

theorem C8_amended_parity_only_validation_witness :
    (teams_check 6 = true ↔ (6 : ℤ) % 2 = 0) ∧
    (teams_check 6 = true →
      (derive_params 6).1 = 6 - 1 ∧ 2 * (derive_params 6).2 = 6) :=
  C8_amended_parity_only_validation 6

/-- C9: saving results merges into the existing per-n JSON record: the
merged dict maps every key absent from the new results to its old
value, and every key of the new results to its new value. -/
theorem C9_save_merges_by_key {V : Type} (old nw : List (String × V))
    (hnd : (dict_keys nw).Nodup) :
    (∀ k, k ∉ dict_keys nw →
      dict_lookup (dict_update old nw) k = dict_lookup old k) ∧
    (∀ k v, dict_lookup nw k = some v →
      dict_lookup (dict_update old nw) k = some v) :=
  ⟨fun k hk => dict_update_lookup_old old nw k hk,
   fun k v h => dict_update_lookup_new old nw k v hnd h⟩

theorem C9_save_merges_by_key_witness :
    (∀ k, k ∉ dict_keys [("b", (3 : ℤ)), ("c", 4)] →
      dict_lookup (dict_update [("a", (1 : ℤ)), ("b", 2)]
        [("b", 3), ("c", 4)]) k = dict_lookup [("a", 1), ("b", 2)] k) ∧
    (∀ k v, dict_lookup [("b", (3 : ℤ)), ("c", 4)] k = some v →
      dict_lookup (dict_update [("a", (1 : ℤ)), ("b", 2)]
        [("b", 3), ("c", 4)]) k = some v) :=
  C9_save_merges_by_key [("a", 1), ("b", 2)] [("b", 3), ("c", 4)] (by decide)

/-- C10: the recursive Heule at-most-one encoding terminates: when the
input list has length k >= 5, the recursive call (the k - 3 remaining
literals plus the negated auxiliary) has length k - 2, strictly smaller,
until the k <= 4 pairwise base case is reached. -/
theorem C10_heule_recursion_terminates (l : List Bool) (b : Bool)
    (h : 5 ≤ l.length) :
    (l.drop 3 ++ [b]).length = l.length - 2 ∧
    (l.drop 3 ++ [b]).length < l.length ∧
    at_most_one_he l =
      ((at_most_one_np (l.take 3 ++ [true]) &&
        at_most_one_he (l.drop 3 ++ [false])) ||
       (at_most_one_np (l.take 3 ++ [false]) &&
        at_most_one_he (l.drop 3 ++ [true]))) := by
  refine ⟨?_, ?_, ?_⟩
  · simp only [List.length_append, List.length_drop, List.length_cons,
      List.length_nil]
    omega
  · simp only [List.length_append, List.length_drop, List.length_cons,
      List.length_nil]
    omega
  · rw [at_most_one_he, if_neg (by omega)]

theorem C10_heule_recursion_terminates_witness :
    (([true, false, false, false, false].drop 3 ++ [true]).length
        = [true, false, false, false, false].length - 2 ∧
      ([true, false, false, false, false].drop 3 ++ [true]).length
        < [true, false, false, false, false].length ∧
      at_most_one_he [true, false, false, false, false] =
        ((at_most_one_np ([true, false, false, false, false].take 3 ++ [true]) &&
          at_most_one_he ([true, false, false, false, false].drop 3 ++ [false])) ||
         (at_most_one_np ([true, false, false, false, false].take 3 ++ [false]) &&
          at_most_one_he ([true, false, false, false, false].drop 3 ++ [true])))) :=
  C10_heule_recursion_terminates [true, false, false, false, false] true
    (by decide)
